import Mathlib

/-!
# lpd8editor: program assembly, active-program channel and tree handles

A shallow embedding of `src/application.cpp` (`Application::program`, `getChar`,
`Application::activeProgramId`, `Application::activeProgramChannel`,
`Application::setActiveProgramChannel`, `Application::refreshModels`) together with the
properties the specification states about them.

Conventions of the embedding.

* C++ `int` values are `Int`. A C++ `char` is represented by its byte `0..255`; on `0..127`
  the byte is the value of the `char` whatever the signedness of `char` is.
* The three SQL tables are lists of rows in the store's row order. `m_pads` and `m_knobs` are
  `QSqlTableModel`s carrying the filter `programId=<n>` installed by `refreshModels`.
* `p->pads[padIndex]` and `p->knobs[knobIndex]` are evaluated for every row with no test
  before them; `padAccesses` and `knobAccesses` list the indices used. With an index outside
  the array the access is undefined behaviour in C++ and the call has no defined value: there
  `Application.program` gives a `Fault` that records the array and the index. A `Fault` is not
  an error the C++ code reports, and nothing in the source ends the call early.
* `programs()` is the `ProgramsModel`; its member functions are not among the sources and are
  modelled from the specification.
-/

namespace Lpd8

/-! ## Data model -/

/-- A row of table `programs`: column 0 is the id, column 1 the name, column 2 the channel. -/
structure ProgramRow where
  programId : Int
  name : String
  channel : Int
deriving DecidableEq, Repr

/-- A row of table `pads` as `QSqlRecord`: every column holds an integer `QVariant`; a field is
the `int` that `toInt()` gives for the column. -/
structure PadRow where
  programId : Int
  controlId : Int
  note : Int
  pc : Int
  cc : Int
  toggle : Int
deriving DecidableEq, Repr

/-- A row of table `knobs` as `QSqlRecord`: every column holds an integer `QVariant`; a field is
the `int` that `toInt()` gives for the column. -/
structure KnobRow where
  programId : Int
  controlId : Int
  cc : Int
  low : Int
  high : Int
deriving DecidableEq, Repr

/-- Modelled from the spec: the declaration of `struct Pad` is not among the sources; the
specification gives it as `Pad{note, pc, cc, toggle}`, each a byte. -/
structure Pad where
  note : Int
  pc : Int
  cc : Int
  toggle : Int
deriving DecidableEq, Repr

/-- Modelled from the spec: the declaration of `struct Knob` is not among the sources; the
specification gives it as `Knob{cc, low, high}`, each a byte. -/
structure Knob where
  cc : Int
  low : Int
  high : Int
deriving DecidableEq, Repr

/-- Modelled from the spec: the declaration of `struct Program` is not among the sources; the
specification gives it as `id` (byte), `channel` (byte), an ordered array of 16 `Pad` and an
ordered array of 8 `Knob`. The arrays are lists whose lengths `16` and `8` every operation of
the embedding keeps. -/
structure Program where
  id : Int
  channel : Int
  pads : List Pad
  knobs : List Knob
deriving DecidableEq, Repr

/-- Number of elements of `Program::pads`. -/
def padCount : Nat := 16

/-- Number of elements of `Program::knobs`. -/
def knobCount : Nat := 8

/-- The bytes of a value-initialized `Pad`. -/
def Pad.zero : Pad := ⟨0, 0, 0, 0⟩

/-- The bytes of a value-initialized `Knob`. -/
def Knob.zero : Knob := ⟨0, 0, 0⟩

/-- The expression `new Program()`: value-initialization of an aggregate without constructor
sets every byte to zero. -/
def Program.new : Program :=
  { id := 0, channel := 0,
    pads := List.replicate padCount Pad.zero,
    knobs := List.replicate knobCount Knob.zero }

/-- An access outside one of the two arrays of `Program` (undefined behaviour in C++), with the
index that was used. -/
inductive Fault where
  | padsIndex (padIndex : Int)
  | knobsIndex (knobIndex : Int)
deriving DecidableEq, Repr

/-- The state `Application` works on: the `QSettings` entry `active/program_id`, the rows of
the three tables, and the program id of the filter that `m_pads` and `m_knobs` carry.
`isValidProgramId` is declared outside the sources and is taken as a parameter. -/
structure Application where
  isValidProgramId : Int → Bool
  activeProgramSetting : Option Int
  programs : List ProgramRow
  padsTable : List PadRow
  knobsTable : List KnobRow
  filterProgramId : Int

/-! ## `application.cpp` -/

/-- The conversion `static_cast<char>(n)` of an `int`: the low byte of `n`. -/
def castChar (n : Int) : Int := n % 256

/-- The function `getChar`, on the integer a column holds, `r.value(name).toChar().toLatin1()`:
`QVariant::toChar` of an integer `n` is `QChar(ushort(n))`, and `QChar::toLatin1` is
`ucs > 0xff ? 0 : char(ucs)`. -/
def getChar (value : Int) : Int :=
  let ucs := value % 65536
  if ucs > 255 then 0 else ucs

/-- `Application::activeProgramId`. -/
def Application.activeProgramId (app : Application) : Int :=
  let programId := app.activeProgramSetting.getD (-1)
  if app.isValidProgramId programId then programId else -1

/-- `Application::refreshModels`: installs the filter `programId=<activeProgramId()>` on
`m_pads` and `m_knobs`. -/
def Application.refreshModels (app : Application) : Application :=
  { app with filterProgramId := app.activeProgramId }

/-- The rows of `m_pads`: the rows of table `pads` that pass the filter, in row order. -/
def Application.m_pads (app : Application) : List PadRow :=
  app.padsTable.filter (fun r => r.programId == app.filterProgramId)

/-- The rows of `m_knobs`: the rows of table `knobs` that pass the filter, in row order. -/
def Application.m_knobs (app : Application) : List KnobRow :=
  app.knobsTable.filter (fun r => r.programId == app.filterProgramId)

/-- The four assignments through `Pad& pad`: the bytes `getChar` reads from a pad row. -/
def padOfRow (r : PadRow) : Pad :=
  { note := getChar r.note, pc := getChar r.pc, cc := getChar r.cc, toggle := getChar r.toggle }

/-- The three assignments through `Knob& knob`: the bytes `getChar` reads from a knob row. -/
def knobOfRow (r : KnobRow) : Knob :=
  { cc := getChar r.cc, low := getChar r.low, high := getChar r.high }

/-- `Pad& pad = p->pads[padIndex]` followed by the four assignments. No check precedes the
access in the source; an index outside the array is a `Fault`. -/
def Program.writePad (p : Program) (padIndex : Int) (pad : Pad) : Except Fault Program :=
  if 0 ≤ padIndex ∧ padIndex < padCount then
    .ok { p with pads := p.pads.set padIndex.toNat pad }
  else
    .error (.padsIndex padIndex)

/-- `Knob& knob = p->knobs[knobIndex]` followed by the three assignments. No check precedes the
access in the source; an index outside the array is a `Fault`. -/
def Program.writeKnob (p : Program) (knobIndex : Int) (knob : Knob) : Except Fault Program :=
  if 0 ≤ knobIndex ∧ knobIndex < knobCount then
    .ok { p with knobs := p.knobs.set knobIndex.toNat knob }
  else
    .error (.knobsIndex knobIndex)

/-- The first loop of `Application::program`, over the rows of `m_pads`. -/
def padsLoop : List PadRow → Program → Except Fault Program
  | [], p => .ok p
  | r :: rs, p =>
    match p.writePad (r.controlId - 1) (padOfRow r) with
    | .ok p1 => padsLoop rs p1
    | .error f => .error f

/-- The second loop of `Application::program`, over the rows of `m_knobs`. -/
def knobsLoop : List KnobRow → Program → Except Fault Program
  | [], p => .ok p
  | r :: rs, p =>
    match p.writeKnob (r.controlId - 1) (knobOfRow r) with
    | .ok p1 => knobsLoop rs p1
    | .error f => .error f

/-- `Application::program`. -/
def Application.program (app : Application) (programId : Int) : Except Fault Program :=
  let p : Program := { Program.new with id := castChar programId, channel := 1 }
  match padsLoop app.m_pads p with
  | .ok p1 => knobsLoop app.m_knobs p1
  | .error f => .error f

/-- The indices at which the first loop of `Application::program` evaluates
`p->pads[padIndex]`, in row order: `padIndex` is `controlId - 1` of the row (line 158) and is
used on the next line with no test between the two. -/
def padsLoopAccesses : List PadRow → List Int
  | [] => []
  | r :: rs => (r.controlId - 1) :: padsLoopAccesses rs

/-- The indices at which the second loop of `Application::program` evaluates
`p->knobs[knobIndex]`, in row order: `knobIndex` is `controlId - 1` of the row (line 174) and
is used on the next line with no test between the two. -/
def knobsLoopAccesses : List KnobRow → List Int
  | [] => []
  | r :: rs => (r.controlId - 1) :: knobsLoopAccesses rs

/-- The indices at which a call of `Application::program` accesses `p->pads`. -/
def Application.padAccesses (app : Application) : List Int := padsLoopAccesses app.m_pads

/-- The indices at which a call of `Application::program` accesses `p->knobs`. -/
def Application.knobAccesses (app : Application) : List Int := knobsLoopAccesses app.m_knobs

/-- Modelled from the spec: `getProgramId`, `ProgramsModel::rowCount` and
`ProgramsModel::data` are not among the sources. By the specification the children of the root
are the rows of `programs` in row order, `getProgramId(programs(), row)` is the `id` of row
`row` and `data(index(row, 2))` its `channel`. This is the loop of
`Application::activeProgramChannel` over those rows. -/
def activeProgramChannelLoop (active : Int) : List ProgramRow → Int
  | [] => -1
  | r :: rs => if r.programId = active then r.channel else activeProgramChannelLoop active rs

/-- `Application::activeProgramChannel`. -/
def Application.activeProgramChannel (app : Application) : Int :=
  activeProgramChannelLoop app.activeProgramId app.programs

/-- The failure of the view interface: `LookupError::UnknownLabel`. -/
inductive LookupError where
  | unknownLabel
deriving DecidableEq, Repr

/-- Modelled from the spec: the lookup table of the channel column ("channel names 1–16"), an
ordered sequence of `(label, rawValue)` pairs. The table itself is not among the sources; the
label of a channel is taken to be its number, which is what the `int` handed over by
`setActiveProgramChannel` carries, and its raw value the channel `1..16` the program row
stores. -/
def channelLut : List (Int × Int) :=
  (List.range 16).map fun (i : Nat) => ((i : Int) + 1, (i : Int) + 1)

/-- Modelled from the spec: `resolveRaw(tableName, label)` "returns the unique stored rawValue
for that label; fails with `LookupError::UnknownLabel` if the label was not produced by this
table". -/
def resolveRaw (table : List (Int × Int)) (label : Int) : Except LookupError Int :=
  match table.find? (fun e => e.1 == label) with
  | some e => .ok e.2
  | none => .error .unknownLabel

/-- Modelled from the spec: `ProgramsModel::setData` is not among the sources. By the
specification `setData(handle, column, value) -> success|LookupError` resolves the value through
the lookup table of the column with `resolveRaw`, writes the raw value to the row, and "fails
(propagating `LookupError::UnknownLabel`) without mutating the store if the label is not
recognized". This is `setData` on column 2 (the channel) of a program row: the row after a
success, or the error, in which case the row stays as it is. -/
def ProgramsModel.setData (r : ProgramRow) (value : Int) : Except LookupError ProgramRow :=
  match resolveRaw channelLut value with
  | .ok raw => .ok { r with channel := raw }
  | .error e => .error e

/-- The statement `programs()->setData(idx, channel);` of line 118: the result of `setData`
is discarded, and the row is the written row after a success and the old row after a
failure. -/
def setDataDiscardingResult (r : ProgramRow) (channel : Int) : ProgramRow :=
  match ProgramsModel.setData r channel with
  | .ok r1 => r1
  | .error _ => r

/-- The loop of `Application::setActiveProgramChannel` over the rows of `programs()`: for every
row whose id is the active program id and whose channel differs from `channel`, line 118 calls
`setData` and line 119 emits `activeProgramChannelChanged(channel)`. The result is the rows
after the loop with the arguments of the signals emitted, in order. -/
def setActiveProgramChannelLoop (active channel : Int) :
    List ProgramRow → List ProgramRow × List Int
  | [] => ([], [])
  | r :: rs =>
    let rest := setActiveProgramChannelLoop active channel rs
    if r.programId = active then
      if channel ≠ r.channel then
        (setDataDiscardingResult r channel :: rest.1, channel :: rest.2)
      else
        (r :: rest.1, rest.2)
    else
      (r :: rest.1, rest.2)

/-- `Application::setActiveProgramChannel`: the state after the call and the arguments of the
signals `activeProgramChannelChanged` it emitted. -/
def Application.setActiveProgramChannel (app : Application) (channel : Int) :
    Application × List Int :=
  let result := setActiveProgramChannelLoop app.activeProgramId channel app.programs
  ({ app with programs := result.1 }, result.2)

/-- The assertion of `MainWindow::setMidiChannel`, the slot connected to
`activeProgramChannelChanged`: `channel == -1 || (channel >= 1 && channel <= 16)`. -/
def setMidiChannelAssertion (channel : Int) : Bool :=
  channel == -1 || (decide (channel ≥ 1) && decide (channel ≤ 16))


/-! ## Closed form of the two loops -/

/-- Proof-side description of a loop that stores `val r` at index `idx r` for every row `r` in
row order. -/
def placeAt {ρ α : Type} (idx : ρ → Nat) (val : ρ → α) (rows : List ρ) (slots : List α) :
    List α :=
  rows.foldl (fun acc r => acc.set (idx r) (val r)) slots

/-- The index `controlId - 1` of a pad row, as a natural number. -/
def PadRow.index (r : PadRow) : Nat := (r.controlId - 1).toNat

/-- The index `controlId - 1` of a knob row, as a natural number. -/
def KnobRow.index (r : KnobRow) : Nat := (r.controlId - 1).toNat

/-- The `controlId` of a pad row designates an element of `Program::pads`. -/
def PadRow.InRange (r : PadRow) : Prop := 1 ≤ r.controlId ∧ r.controlId ≤ 16

/-- The `controlId` of a knob row designates an element of `Program::knobs`. -/
def KnobRow.InRange (r : KnobRow) : Prop := 1 ≤ r.controlId ∧ r.controlId ≤ 8

instance (r : PadRow) : Decidable r.InRange := by unfold PadRow.InRange; infer_instance

instance (r : KnobRow) : Decidable r.InRange := by unfold KnobRow.InRange; infer_instance

/-- The Program that `Application::program` returns when every access is inside its array. -/
def Application.assembled (app : Application) (programId : Int) : Program :=
  { id := castChar programId, channel := 1,
    pads := placeAt PadRow.index padOfRow app.m_pads (List.replicate padCount Pad.zero),
    knobs := placeAt KnobRow.index knobOfRow app.m_knobs (List.replicate knobCount Knob.zero) }

/-- Every value column of a pad row holds a raw byte `0..127`, as the data model has it. -/
def PadRow.IsRaw (r : PadRow) : Prop :=
  (0 ≤ r.note ∧ r.note ≤ 127) ∧ (0 ≤ r.pc ∧ r.pc ≤ 127) ∧ (0 ≤ r.cc ∧ r.cc ≤ 127) ∧
    (0 ≤ r.toggle ∧ r.toggle ≤ 127)

/-- Every value column of a knob row holds a raw byte `0..127`, as the data model has it. -/
def KnobRow.IsRaw (r : KnobRow) : Prop :=
  (0 ≤ r.cc ∧ r.cc ≤ 127) ∧ (0 ≤ r.low ∧ r.low ≤ 127) ∧ (0 ≤ r.high ∧ r.high ≤ 127)

instance (r : PadRow) : Decidable r.IsRaw := by unfold PadRow.IsRaw; infer_instance

instance (r : KnobRow) : Decidable r.IsRaw := by unfold KnobRow.IsRaw; infer_instance

/-! ## Tree handles of `ProgramsModel` -/

/-- The two groups below a program node, in their fixed order. -/
inductive GroupKind where
  | pads
  | knobs
deriving DecidableEq, Repr

/-- The logical nodes of the tree: the root, a program, one of its two groups, a control. -/
inductive Node where
  | root
  | program (programId : Nat)
  | group (programId : Nat) (kind : GroupKind)
  | control (programId : Nat) (kind : GroupKind) (controlId : Nat)
deriving DecidableEq, Repr

/-- Number of controls of a group: 16 pads, 8 knobs. -/
def GroupKind.size : GroupKind → Nat
  | .pads => 16
  | .knobs => 8

/-- The bit that stands for a group kind in a handle. -/
def GroupKind.code : GroupKind → Nat
  | .pads => 0
  | .knobs => 1

/-- The group kind a bit stands for. -/
def GroupKind.ofCode (n : Nat) : GroupKind := if n = 0 then .pads else .knobs

/-- A node of the tree the data model describes: the `controlId` of a control node is in
`1..16` for a pad and in `1..8` for a knob. -/
def Node.Valid : Node → Prop
  | .control _ kind controlId => 1 ≤ controlId ∧ controlId ≤ kind.size
  | _ => True

instance (x : Node) : Decidable x.Valid := by
  cases x <;> unfold Node.Valid <;> infer_instance

/-- Modelled from the spec: `ProgramsModel::index` and `ProgramsModel::parent` are declared in
`programsmodel.h` and their definitions are not among the sources. The specification describes
the handle as a scheme that "packs kind-tag, programId, groupKind, and controlId into a single
integer"; the field widths are left open there and are chosen here: the kind tag in the two low
bits, the group kind in the next bit, the `controlId` in the next five bits and the `programId`
above them. -/
def ProgramsModel.pack (tag programId groupKind controlId : Nat) : Nat :=
  tag + 4 * (groupKind + 2 * (controlId + 32 * programId))

/-- Modelled from the spec: the handle `ProgramsModel::index` produces for a node (the definition
of `index` is not among the sources); kind tags `0` root, `1` program, `2` group, `3` control,
and the fields a node kind does not have are zero. -/
def ProgramsModel.encode : Node → Nat
  | .root => ProgramsModel.pack 0 0 0 0
  | .program programId => ProgramsModel.pack 1 programId 0 0
  | .group programId kind => ProgramsModel.pack 2 programId kind.code 0
  | .control programId kind controlId => ProgramsModel.pack 3 programId kind.code controlId

/-- Modelled from the spec: the node a handle stands for (no definition of `ProgramsModel` is
among the sources); a handle no node encodes is rejected. -/
def ProgramsModel.decode (h : Nat) : Option Node :=
  let tag := h % 4
  let groupKind := h / 4 % 2
  let controlId := h / 8 % 32
  let programId := h / 256
  if tag = 0 then
    if h = 0 then some .root else none
  else if tag = 1 then
    if groupKind = 0 ∧ controlId = 0 then some (.program programId) else none
  else if tag = 2 then
    if controlId = 0 then some (.group programId (GroupKind.ofCode groupKind)) else none
  else
    if 1 ≤ controlId ∧ controlId ≤ (GroupKind.ofCode groupKind).size then
      some (.control programId (GroupKind.ofCode groupKind) controlId)
    else none

/-- Modelled from the spec: `ProgramsModel::parent` on handles (its definition is not among the
sources): the parent is computed from the fields of the handle alone; a control handle gives
its group handle, a group handle its program handle, and a program handle or the root gives the
root handle. -/
def ProgramsModel.parent (h : Nat) : Nat :=
  let tag := h % 4
  if tag = 3 then ProgramsModel.pack 2 (h / 256) (h / 4 % 2) 0
  else if tag = 2 then ProgramsModel.pack 1 (h / 256) 0 0
  else ProgramsModel.pack 0 0 0 0

/-! ## Example stores -/

/-- Sixteen pad rows of one program, `controlId` 1 to 16 in order, notes counted from `base`. -/
def samplePads (programId base : Int) : List PadRow :=
  (List.range 16).map fun i =>
    { programId := programId, controlId := i + 1, note := base + i, pc := i, cc := 16 + i,
      toggle := i % 2 }

/-- Eight knob rows of one program, `controlId` 1 to 8 in order, controller numbers counted
from `base`. -/
def sampleKnobs (programId base : Int) : List KnobRow :=
  (List.range 8).map fun i =>
    { programId := programId, controlId := i + 1, cc := base + i, low := 0, high := 127 }

/-- A store with the two complete programs 1 and 7; program 7 is active and filtered. -/
def sampleApp : Application :=
  { isValidProgramId := fun n => n == 1 || n == 7,
    activeProgramSetting := some 7,
    programs := [⟨1, "one", 3⟩, ⟨7, "seven", 5⟩],
    padsTable := samplePads 1 36 ++ samplePads 7 60,
    knobsTable := sampleKnobs 1 1 ++ sampleKnobs 7 70,
    filterProgramId := 7 }

/-- The store `sampleApp` without the knob row of program 7 whose `controlId` is 5. -/
def missingKnobApp : Application :=
  { sampleApp with
    knobsTable := sampleApp.knobsTable.filter
      (fun r => !(r.programId == 7 && r.controlId == 5)) }

/-- The store `sampleApp` with a second pad row of program 7 whose `controlId` is 3. -/
def duplicatePadApp : Application :=
  { sampleApp with
    padsTable := sampleApp.padsTable ++
      [{ programId := 7, controlId := 3, note := 99, pc := 98, cc := 97, toggle := 1 }] }

/-- The store `sampleApp` with one more pad row of program 7, whose `controlId` is 17. -/
def outOfRangeApp : Application :=
  { sampleApp with
    padsTable := sampleApp.padsTable ++
      [{ programId := 7, controlId := 17, note := 99, pc := 98, cc := 97, toggle := 1 }] }

/-! ## Lemmas on the two loops -/

theorem placeAt_nil {ρ α : Type} (idx : ρ → Nat) (val : ρ → α) (slots : List α) :
    placeAt idx val [] slots = slots := rfl

theorem placeAt_cons {ρ α : Type} (idx : ρ → Nat) (val : ρ → α) (r : ρ) (rows : List ρ)
    (slots : List α) :
    placeAt idx val (r :: rows) slots = placeAt idx val rows (slots.set (idx r) (val r)) := rfl

theorem placeAt_append {ρ α : Type} (idx : ρ → Nat) (val : ρ → α) (pre post : List ρ)
    (slots : List α) :
    placeAt idx val (pre ++ post) slots = placeAt idx val post (placeAt idx val pre slots) := by
  simp [placeAt, List.foldl_append]

theorem placeAt_length {ρ α : Type} (idx : ρ → Nat) (val : ρ → α) (rows : List ρ)
    (slots : List α) : (placeAt idx val rows slots).length = slots.length := by
  induction rows generalizing slots with
  | nil => rfl
  | cons r rows ih => rw [placeAt_cons, ih, List.length_set]

/-- A slot that no row designates keeps its content. -/
theorem placeAt_getElem?_of_ne {ρ α : Type} (idx : ρ → Nat) (val : ρ → α) (rows : List ρ)
    (slots : List α) (k : Nat) (h : ∀ r ∈ rows, idx r ≠ k) :
    (placeAt idx val rows slots)[k]? = slots[k]? := by
  induction rows generalizing slots with
  | nil => rfl
  | cons r rows ih =>
    rw [placeAt_cons, ih _ (fun r1 h1 => h r1 (List.mem_cons_of_mem _ h1))]
    exact List.getElem?_set_ne (h r (List.mem_cons_self _ _))

/-- The slot a row designates holds the value of that row when no later row designates it. -/
theorem placeAt_getElem?_last {ρ α : Type} (idx : ρ → Nat) (val : ρ → α) (pre post : List ρ)
    (r : ρ) (slots : List α) (hlt : idx r < slots.length) (h : ∀ r1 ∈ post, idx r1 ≠ idx r) :
    (placeAt idx val (pre ++ r :: post) slots)[idx r]? = some (val r) := by
  rw [placeAt_append, placeAt_cons, placeAt_getElem?_of_ne idx val post _ _ h]
  exact List.getElem?_set_self (by rw [placeAt_length]; exact hlt)

theorem padsLoop_ok (rows : List PadRow) (p : Program) (h : ∀ r ∈ rows, r.InRange) :
    padsLoop rows p = .ok { p with pads := placeAt PadRow.index padOfRow rows p.pads } := by
  induction rows generalizing p with
  | nil => rfl
  | cons r rows ih =>
    have hr : 0 ≤ r.controlId - 1 ∧ r.controlId - 1 < padCount := by
      have := h r (List.mem_cons_self _ _)
      unfold PadRow.InRange at this
      unfold padCount
      omega
    simp only [padsLoop, Program.writePad, hr, and_self, if_true]
    rw [ih _ (fun r1 h1 => h r1 (List.mem_cons_of_mem _ h1))]
    rfl

theorem padsLoop_inRange (rows : List PadRow) (p q : Program) (h : padsLoop rows p = .ok q) :
    ∀ r ∈ rows, r.InRange := by
  induction rows generalizing p with
  | nil => intro r hr; cases hr
  | cons r rows ih =>
    by_cases hr : 0 ≤ r.controlId - 1 ∧ r.controlId - 1 < padCount
    · simp only [padsLoop, Program.writePad, hr, and_self, if_true] at h
      intro r1 h1
      rcases List.mem_cons.1 h1 with rfl | h2
      · unfold PadRow.InRange
        unfold padCount at hr
        omega
      · exact ih _ h r1 h2
    · simp only [padsLoop, Program.writePad, hr, if_false] at h
      cases h

theorem knobsLoop_ok (rows : List KnobRow) (p : Program) (h : ∀ r ∈ rows, r.InRange) :
    knobsLoop rows p = .ok { p with knobs := placeAt KnobRow.index knobOfRow rows p.knobs } := by
  induction rows generalizing p with
  | nil => rfl
  | cons r rows ih =>
    have hr : 0 ≤ r.controlId - 1 ∧ r.controlId - 1 < knobCount := by
      have := h r (List.mem_cons_self _ _)
      unfold KnobRow.InRange at this
      unfold knobCount
      omega
    simp only [knobsLoop, Program.writeKnob, hr, and_self, if_true]
    rw [ih _ (fun r1 h1 => h r1 (List.mem_cons_of_mem _ h1))]
    rfl

theorem knobsLoop_inRange (rows : List KnobRow) (p q : Program) (h : knobsLoop rows p = .ok q) :
    ∀ r ∈ rows, r.InRange := by
  induction rows generalizing p with
  | nil => intro r hr; cases hr
  | cons r rows ih =>
    by_cases hr : 0 ≤ r.controlId - 1 ∧ r.controlId - 1 < knobCount
    · simp only [knobsLoop, Program.writeKnob, hr, and_self, if_true] at h
      intro r1 h1
      rcases List.mem_cons.1 h1 with rfl | h2
      · unfold KnobRow.InRange
        unfold knobCount at hr
        omega
      · exact ih _ h r1 h2
    · simp only [knobsLoop, Program.writeKnob, hr, if_false] at h
      cases h

theorem program_ok (app : Application) (programId : Int)
    (hp : ∀ r ∈ app.m_pads, r.InRange) (hk : ∀ r ∈ app.m_knobs, r.InRange) :
    app.program programId = .ok (app.assembled programId) := by
  unfold Application.program
  simp only [padsLoop_ok _ _ hp, knobsLoop_ok _ _ hk]
  rfl

theorem program_inRange (app : Application) (programId : Int) (p : Program)
    (h : app.program programId = .ok p) :
    (∀ r ∈ app.m_pads, r.InRange) ∧ (∀ r ∈ app.m_knobs, r.InRange) := by
  unfold Application.program at h
  simp only at h
  split at h
  · next p1 h1 => exact ⟨padsLoop_inRange _ _ _ h1, knobsLoop_inRange _ _ _ h⟩
  · cases h

theorem program_eq_assembled (app : Application) (programId : Int) (p : Program)
    (h : app.program programId = .ok p) : p = app.assembled programId := by
  have hr := program_inRange app programId p h
  rw [program_ok app programId hr.1 hr.2] at h
  exact (Except.ok.inj h).symm


/-- Every slot holds what it held before the loop or the value of a row that designates it. -/
theorem placeAt_getElem?_cases {ρ α : Type} (idx : ρ → Nat) (val : ρ → α) (rows : List ρ)
    (slots : List α) (k : Nat) (a : α) (h : (placeAt idx val rows slots)[k]? = some a) :
    slots[k]? = some a ∨ ∃ r ∈ rows, idx r = k ∧ a = val r := by
  induction rows generalizing slots with
  | nil => exact Or.inl h
  | cons r rows ih =>
    rw [placeAt_cons] at h
    rcases ih _ h with h1 | ⟨r1, hr1, hk, ha⟩
    · by_cases hk : idx r = k
      · subst hk
        by_cases hlt : idx r < slots.length
        · rw [List.getElem?_set_self hlt] at h1
          exact Or.inr ⟨r, List.mem_cons_self _ _, rfl, (Option.some.inj h1).symm⟩
        · rw [List.getElem?_eq_none (by rw [List.length_set]; omega)] at h1
          cases h1
      · rw [List.getElem?_set_ne hk] at h1
        exact Or.inl h1
    · exact Or.inr ⟨r1, List.mem_cons_of_mem _ hr1, hk, ha⟩

theorem getChar_of_raw (v : Int) (h : 0 ≤ v ∧ v ≤ 127) : getChar v = v := by
  unfold getChar
  have h1 : v % 65536 = v := Int.emod_eq_of_lt h.1 (by omega)
  simp only [h1]
  rw [if_neg (by omega)]

theorem castChar_of_raw (n : Int) (h0 : 0 ≤ n) (h1 : n ≤ 127) : castChar n = n := by
  unfold castChar
  exact Int.emod_eq_of_lt h0 (by omega)

theorem padOfRow_of_raw (r : PadRow) (h : r.IsRaw) :
    padOfRow r = ⟨r.note, r.pc, r.cc, r.toggle⟩ := by
  obtain ⟨h1, h2, h3, h4⟩ := h
  simp only [padOfRow, getChar_of_raw _ h1, getChar_of_raw _ h2, getChar_of_raw _ h3,
    getChar_of_raw _ h4]

theorem knobOfRow_of_raw (r : KnobRow) (h : r.IsRaw) :
    knobOfRow r = ⟨r.cc, r.low, r.high⟩ := by
  obtain ⟨h1, h2, h3⟩ := h
  simp only [knobOfRow, getChar_of_raw _ h1, getChar_of_raw _ h2, getChar_of_raw _ h3]

/-- In the assembled Program the slot of a pad row holds the bytes of that row when no later
row has its `controlId`. -/
theorem assembled_pads_last (app : Application) (programId : Int) (pre post : List PadRow)
    (r : PadRow) (hsplit : app.m_pads = pre ++ r :: post) (hr : ∀ x ∈ app.m_pads, x.InRange)
    (hlast : ∀ x ∈ post, x.controlId ≠ r.controlId) :
    (app.assembled programId).pads[r.index]? = some (padOfRow r) := by
  have hrr : r.InRange := hr r (by rw [hsplit]; simp)
  unfold Application.assembled
  simp only [hsplit]
  apply placeAt_getElem?_last
  · unfold PadRow.InRange at hrr
    simp only [List.length_replicate, padCount, PadRow.index]
    omega
  · intro x hx
    have hxr : x.InRange := hr x (by rw [hsplit]; simp [hx])
    have hne := hlast x hx
    unfold PadRow.InRange at hrr hxr
    simp only [PadRow.index]
    omega

/-- In the assembled Program the slot of a knob row holds the bytes of that row when no later
row has its `controlId`. -/
theorem assembled_knobs_last (app : Application) (programId : Int) (pre post : List KnobRow)
    (r : KnobRow) (hsplit : app.m_knobs = pre ++ r :: post) (hr : ∀ x ∈ app.m_knobs, x.InRange)
    (hlast : ∀ x ∈ post, x.controlId ≠ r.controlId) :
    (app.assembled programId).knobs[r.index]? = some (knobOfRow r) := by
  have hrr : r.InRange := hr r (by rw [hsplit]; simp)
  unfold Application.assembled
  simp only [hsplit]
  apply placeAt_getElem?_last
  · unfold KnobRow.InRange at hrr
    simp only [List.length_replicate, knobCount, KnobRow.index]
    omega
  · intro x hx
    have hxr : x.InRange := hr x (by rw [hsplit]; simp [hx])
    have hne := hlast x hx
    unfold KnobRow.InRange at hrr hxr
    simp only [KnobRow.index]
    omega

/-- A row of a list without repeated keys is followed by no row with its key. -/
theorem exists_split_of_nodup {ρ : Type} (key : ρ → Int) (rows : List ρ)
    (hnd : (rows.map key).Nodup) (r : ρ) (hr : r ∈ rows) :
    ∃ pre post, rows = pre ++ r :: post ∧ ∀ x ∈ post, key x ≠ key r := by
  obtain ⟨pre, post, hsplit⟩ := List.append_of_mem hr
  refine ⟨pre, post, hsplit, ?_⟩
  intro x hx heq
  rw [hsplit, List.map_append, List.map_cons] at hnd
  have h2 := (List.nodup_cons.1 (List.nodup_append.1 hnd).2.1).1
  exact h2 (heq ▸ List.mem_map_of_mem key hx)

theorem padsLoop_error (rows : List PadRow) (p : Program) (f : Fault)
    (h : padsLoop rows p = .error f) :
    ∃ r ∈ rows, ¬ r.InRange ∧ f = .padsIndex (r.controlId - 1) := by
  induction rows generalizing p with
  | nil => cases h
  | cons r rows ih =>
    by_cases hr : 0 ≤ r.controlId - 1 ∧ r.controlId - 1 < padCount
    · simp only [padsLoop, Program.writePad, hr, and_self, if_true] at h
      obtain ⟨r1, h1, h2⟩ := ih _ h
      exact ⟨r1, List.mem_cons_of_mem _ h1, h2⟩
    · simp only [padsLoop, Program.writePad, hr, if_false] at h
      refine ⟨r, List.mem_cons_self _ _, ?_, (Except.error.inj h).symm⟩
      unfold PadRow.InRange
      unfold padCount at hr
      omega

theorem knobsLoop_error (rows : List KnobRow) (p : Program) (f : Fault)
    (h : knobsLoop rows p = .error f) :
    ∃ r ∈ rows, ¬ r.InRange ∧ f = .knobsIndex (r.controlId - 1) := by
  induction rows generalizing p with
  | nil => cases h
  | cons r rows ih =>
    by_cases hr : 0 ≤ r.controlId - 1 ∧ r.controlId - 1 < knobCount
    · simp only [knobsLoop, Program.writeKnob, hr, and_self, if_true] at h
      obtain ⟨r1, h1, h2⟩ := ih _ h
      exact ⟨r1, List.mem_cons_of_mem _ h1, h2⟩
    · simp only [knobsLoop, Program.writeKnob, hr, if_false] at h
      refine ⟨r, List.mem_cons_self _ _, ?_, (Except.error.inj h).symm⟩
      unfold KnobRow.InRange
      unfold knobCount at hr
      omega

theorem program_error (app : Application) (programId : Int) (f : Fault)
    (h : app.program programId = .error f) :
    (∃ r ∈ app.m_pads, ¬ r.InRange ∧ f = .padsIndex (r.controlId - 1)) ∨
      (∃ r ∈ app.m_knobs, ¬ r.InRange ∧ f = .knobsIndex (r.controlId - 1)) := by
  unfold Application.program at h
  simp only at h
  split at h
  · exact Or.inr (knobsLoop_error _ _ _ h)
  · next f1 h1 =>
    cases h
    exact Or.inl (padsLoop_error _ _ _ h1)

/-- Fewer than `n` rows leave one of the `n` slots without a row. -/
theorem exists_missing_slot {ρ : Type} (key : ρ → Int) (rows : List ρ) (n : Nat)
    (h : rows.length < n) : ∃ k : Nat, k < n ∧ ∀ r ∈ rows, key r ≠ k + 1 := by
  have hcard : (rows.map (fun r => (key r - 1).toNat)).toFinset.card < (Finset.range n).card := by
    rw [Finset.card_range]
    calc (rows.map (fun r => (key r - 1).toNat)).toFinset.card
        ≤ (rows.map (fun r => (key r - 1).toNat)).length := List.toFinset_card_le _
      _ = rows.length := List.length_map _ _
      _ < n := h
  have hsub : ¬ Finset.range n ⊆ (rows.map (fun r => (key r - 1).toNat)).toFinset :=
    fun hs => absurd (Finset.card_le_card hs) (by omega)
  obtain ⟨k, hk, hnot⟩ := Finset.not_subset.1 hsub
  refine ⟨k, Finset.mem_range.1 hk, ?_⟩
  intro r hr heq
  apply hnot
  rw [List.mem_toFinset]
  refine List.mem_map.2 ⟨r, hr, ?_⟩
  show (key r - 1).toNat = k
  omega

theorem padsLoopAccesses_eq_map (rows : List PadRow) :
    padsLoopAccesses rows = rows.map (fun r => r.controlId - 1) := by
  induction rows with
  | nil => rfl
  | cons r rows ih => simp only [padsLoopAccesses, List.map_cons, ih]

theorem knobsLoopAccesses_eq_map (rows : List KnobRow) :
    knobsLoopAccesses rows = rows.map (fun r => r.controlId - 1) := by
  induction rows with
  | nil => rfl
  | cons r rows ih => simp only [knobsLoopAccesses, List.map_cons, ih]

/-! ## The claims on `Application::program` -/

/-- C1: when the rows `Application::program` sees are exactly 16 pad rows whose `controlId`
values are 1 to 16 once each and exactly 8 knob rows whose `controlId` values are 1 to 8 once
each (value columns holding raw bytes, as the data model has them), the call returns a Program
in which every pad row `r` is found at `pads[r.controlId - 1]` as `(note, pc, cc, toggle)` and
every knob row `r` at `knobs[r.controlId - 1]` as `(cc, low, high)`. -/
theorem program_places_complete_banks (app : Application) (programId : Int)
    (hpads : (app.m_pads.map PadRow.controlId).Perm
      [1, 2, 3, 4, 5, 6, 7, 8, 9, 10, 11, 12, 13, 14, 15, 16])
    (hknobs : (app.m_knobs.map KnobRow.controlId).Perm [1, 2, 3, 4, 5, 6, 7, 8])
    (hrawPads : ∀ r ∈ app.m_pads, r.IsRaw) (hrawKnobs : ∀ r ∈ app.m_knobs, r.IsRaw) :
    ∃ p, app.program programId = .ok p ∧
      (∀ r ∈ app.m_pads,
        p.pads[(r.controlId - 1).toNat]? = some ⟨r.note, r.pc, r.cc, r.toggle⟩) ∧
      (∀ r ∈ app.m_knobs,
        p.knobs[(r.controlId - 1).toNat]? = some ⟨r.cc, r.low, r.high⟩) := by
  have hp : ∀ r ∈ app.m_pads, r.InRange := by
    intro r hr
    have hmem := hpads.mem_iff.1 (List.mem_map_of_mem PadRow.controlId hr)
    unfold PadRow.InRange
    simp only [List.mem_cons, List.mem_singleton, List.not_mem_nil, or_false] at hmem
    omega
  have hk : ∀ r ∈ app.m_knobs, r.InRange := by
    intro r hr
    have hmem := hknobs.mem_iff.1 (List.mem_map_of_mem KnobRow.controlId hr)
    unfold KnobRow.InRange
    simp only [List.mem_cons, List.mem_singleton, List.not_mem_nil, or_false] at hmem
    omega
  have hndp : (app.m_pads.map PadRow.controlId).Nodup := hpads.nodup_iff.2 (by decide)
  have hndk : (app.m_knobs.map KnobRow.controlId).Nodup := hknobs.nodup_iff.2 (by decide)
  refine ⟨app.assembled programId, program_ok app programId hp hk, ?_, ?_⟩
  · intro r hr
    obtain ⟨pre, post, hsplit, hlast⟩ := exists_split_of_nodup PadRow.controlId _ hndp r hr
    rw [← padOfRow_of_raw r (hrawPads r hr)]
    exact assembled_pads_last app programId pre post r hsplit hp hlast
  · intro r hr
    obtain ⟨pre, post, hsplit, hlast⟩ := exists_split_of_nodup KnobRow.controlId _ hndk r hr
    rw [← knobOfRow_of_raw r (hrawKnobs r hr)]
    exact assembled_knobs_last app programId pre post r hsplit hk hlast

/-- The statement above at the store `sampleApp`, sent to device slot 1. -/
theorem program_places_complete_banks_witness :
    ∃ p, sampleApp.program 1 = .ok p ∧
      (∀ r ∈ sampleApp.m_pads,
        p.pads[(r.controlId - 1).toNat]? = some ⟨r.note, r.pc, r.cc, r.toggle⟩) ∧
      (∀ r ∈ sampleApp.m_knobs,
        p.knobs[(r.controlId - 1).toNat]? = some ⟨r.cc, r.low, r.high⟩) :=
  program_places_complete_banks sampleApp 1 (List.Perm.refl _) (List.Perm.refl _)
    (by decide) (by decide)


/-- C2, as the code has it: every pad and knob value of the Program that
`Application::program(programId)` returns is a zero byte group no row wrote or comes from a row
whose `programId` column equals the program id of the filter carried by `m_pads` and `m_knobs`,
whatever the `programId` argument is; `refreshModels` sets that filter to `activeProgramId()`. -/
theorem program_values_come_from_filtered_rows (app : Application) (programId : Int)
    (p : Program) (h : app.program programId = .ok p) :
    (∀ k pad, p.pads[k]? = some pad → pad = Pad.zero ∨
      ∃ r ∈ app.padsTable, r.programId = app.filterProgramId ∧
        (r.controlId - 1).toNat = k ∧ pad = padOfRow r) ∧
    (∀ k knob, p.knobs[k]? = some knob → knob = Knob.zero ∨
      ∃ r ∈ app.knobsTable, r.programId = app.filterProgramId ∧
        (r.controlId - 1).toNat = k ∧ knob = knobOfRow r) ∧
    app.refreshModels.filterProgramId = app.activeProgramId := by
  have hp := program_eq_assembled app programId p h
  subst hp
  refine ⟨?_, ?_, rfl⟩
  · intro k pad hk
    rcases placeAt_getElem?_cases _ _ _ _ k pad hk with h1 | ⟨r, hr, hidx, hval⟩
    · left
      rw [List.getElem?_replicate] at h1
      split at h1
      · exact (Option.some.inj h1).symm
      · cases h1
    · right
      have hmem := List.mem_filter.1 hr
      exact ⟨r, hmem.1, by simpa using hmem.2, hidx, hval⟩
  · intro k knob hk
    rcases placeAt_getElem?_cases _ _ _ _ k knob hk with h1 | ⟨r, hr, hidx, hval⟩
    · left
      rw [List.getElem?_replicate] at h1
      split at h1
      · exact (Option.some.inj h1).symm
      · cases h1
    · right
      have hmem := List.mem_filter.1 hr
      exact ⟨r, hmem.1, by simpa using hmem.2, hidx, hval⟩

/-- The statement above at the store `sampleApp`, whose filter is program 7, sent to slot 1. -/
theorem program_values_come_from_filtered_rows_witness :
    (∀ k pad, (sampleApp.assembled 1).pads[k]? = some pad → pad = Pad.zero ∨
      ∃ r ∈ sampleApp.padsTable, r.programId = sampleApp.filterProgramId ∧
        (r.controlId - 1).toNat = k ∧ pad = padOfRow r) ∧
    (∀ k knob, (sampleApp.assembled 1).knobs[k]? = some knob → knob = Knob.zero ∨
      ∃ r ∈ sampleApp.knobsTable, r.programId = sampleApp.filterProgramId ∧
        (r.controlId - 1).toNat = k ∧ knob = knobOfRow r) ∧
    sampleApp.refreshModels.filterProgramId = sampleApp.activeProgramId :=
  program_values_come_from_filtered_rows sampleApp 1 (sampleApp.assembled 1) rfl

/-- C2 as stated does not hold of the code: in `sampleApp` program 7 is active; `program(1)`
returns in `pads[0]` the bytes of the row of program 7, and no pad row of program 1 has these
bytes. -/
theorem program_reads_requested_rows_counterexample :
    sampleApp.activeProgramId = 7 ∧
      (⟨7, 1, 60, 0, 16, 0⟩ : PadRow) ∈ sampleApp.padsTable ∧
      Except.map (fun p => p.pads[0]?) (sampleApp.program 1) = .ok (some ⟨60, 0, 16, 0⟩) ∧
      (∀ r ∈ sampleApp.padsTable, r.programId = 1 → padOfRow r ≠ ⟨60, 0, 16, 0⟩) :=
  ⟨rfl, by decide, rfl, by decide⟩

/-- C3, as the code has it: `Application::program` makes no completeness check; when every
`controlId` it sees designates an array element it returns a Program, also with fewer than 16
pad rows or fewer than 8 knob rows, and every slot that no row designates holds the zero bytes
of the freshly value-initialized Program; with fewer than 16 pad rows or fewer than 8 knob
rows there is such a slot. -/
theorem program_leaves_missing_slots_zero (app : Application) (programId : Int)
    (hp : ∀ r ∈ app.m_pads, 1 ≤ r.controlId ∧ r.controlId ≤ 16)
    (hk : ∀ r ∈ app.m_knobs, 1 ≤ r.controlId ∧ r.controlId ≤ 8) :
    ∃ p, app.program programId = .ok p ∧
      (∀ k : Nat, k < 16 → (∀ r ∈ app.m_pads, r.controlId ≠ k + 1) →
        p.pads[k]? = some Pad.zero) ∧
      (∀ k : Nat, k < 8 → (∀ r ∈ app.m_knobs, r.controlId ≠ k + 1) →
        p.knobs[k]? = some Knob.zero) ∧
      (app.m_pads.length < 16 → ∃ k : Nat, k < 16 ∧
        (∀ r ∈ app.m_pads, r.controlId ≠ k + 1) ∧ p.pads[k]? = some Pad.zero) ∧
      (app.m_knobs.length < 8 → ∃ k : Nat, k < 8 ∧
        (∀ r ∈ app.m_knobs, r.controlId ≠ k + 1) ∧ p.knobs[k]? = some Knob.zero) := by
  have hpads : ∀ k : Nat, k < 16 → (∀ r ∈ app.m_pads, r.controlId ≠ k + 1) →
      (app.assembled programId).pads[k]? = some Pad.zero := by
    intro k hk16 hmiss
    unfold Application.assembled
    simp only
    rw [placeAt_getElem?_of_ne, List.getElem?_replicate, if_pos (by unfold padCount; exact hk16)]
    intro r hr
    have h1 := hp r hr
    have h2 := hmiss r hr
    simp only [PadRow.index]
    omega
  have hknobs : ∀ k : Nat, k < 8 → (∀ r ∈ app.m_knobs, r.controlId ≠ k + 1) →
      (app.assembled programId).knobs[k]? = some Knob.zero := by
    intro k hk8 hmiss
    unfold Application.assembled
    simp only
    rw [placeAt_getElem?_of_ne, List.getElem?_replicate, if_pos (by unfold knobCount; exact hk8)]
    intro r hr
    have h1 := hk r hr
    have h2 := hmiss r hr
    simp only [KnobRow.index]
    omega
  refine ⟨app.assembled programId, program_ok app programId hp hk, hpads, hknobs, ?_, ?_⟩
  · intro hlen
    obtain ⟨k, hk16, hmiss⟩ := exists_missing_slot PadRow.controlId app.m_pads 16 hlen
    exact ⟨k, hk16, hmiss, hpads k hk16 hmiss⟩
  · intro hlen
    obtain ⟨k, hk8, hmiss⟩ := exists_missing_slot KnobRow.controlId app.m_knobs 8 hlen
    exact ⟨k, hk8, hmiss, hknobs k hk8 hmiss⟩

/-- The statement above at the store `missingKnobApp`, which lacks knob 5 of program 7. -/
theorem program_leaves_missing_slots_zero_witness :
    ∃ p, missingKnobApp.program 7 = .ok p ∧
      (∀ k : Nat, k < 16 → (∀ r ∈ missingKnobApp.m_pads, r.controlId ≠ k + 1) →
        p.pads[k]? = some Pad.zero) ∧
      (∀ k : Nat, k < 8 → (∀ r ∈ missingKnobApp.m_knobs, r.controlId ≠ k + 1) →
        p.knobs[k]? = some Knob.zero) ∧
      (missingKnobApp.m_pads.length < 16 → ∃ k : Nat, k < 16 ∧
        (∀ r ∈ missingKnobApp.m_pads, r.controlId ≠ k + 1) ∧ p.pads[k]? = some Pad.zero) ∧
      (missingKnobApp.m_knobs.length < 8 → ∃ k : Nat, k < 8 ∧
        (∀ r ∈ missingKnobApp.m_knobs, r.controlId ≠ k + 1) ∧
          p.knobs[k]? = some Knob.zero) :=
  program_leaves_missing_slots_zero missingKnobApp 7 (by decide) (by decide)

/-- C3 as stated does not hold of the code: `missingKnobApp` has 7 knob rows for program 7, none
with `controlId` 5, and `program(7)` returns a Program whose `knobs[4]` is zero-filled. -/
theorem program_missing_knob_counterexample :
    missingKnobApp.m_knobs.length = 7 ∧
      (∀ r ∈ missingKnobApp.m_knobs, r.controlId ≠ 5) ∧
      Except.map (fun p => p.knobs[4]?) (missingKnobApp.program 7) = .ok (some ⟨0, 0, 0⟩) :=
  ⟨rfl, by decide, rfl⟩

/-- C4, as the code has it: `Application::program` does not detect two rows with one
`controlId`; when every `controlId` it sees designates an array element it returns a Program in
which the slot `controlId - 1` of a row holds the bytes of that row whenever no later row has
the same `controlId`, so that of several such rows the last one is kept. -/
theorem program_keeps_last_duplicate (app : Application) (programId : Int)
    (hp : ∀ r ∈ app.m_pads, 1 ≤ r.controlId ∧ r.controlId ≤ 16)
    (hk : ∀ r ∈ app.m_knobs, 1 ≤ r.controlId ∧ r.controlId ≤ 8) :
    ∃ p, app.program programId = .ok p ∧
      (∀ pre r post, app.m_pads = pre ++ r :: post →
        (∀ x ∈ post, x.controlId ≠ r.controlId) →
        p.pads[(r.controlId - 1).toNat]? = some (padOfRow r)) ∧
      (∀ pre r post, app.m_knobs = pre ++ r :: post →
        (∀ x ∈ post, x.controlId ≠ r.controlId) →
        p.knobs[(r.controlId - 1).toNat]? = some (knobOfRow r)) :=
  ⟨app.assembled programId, program_ok app programId hp hk,
    fun pre r post hs hl => assembled_pads_last app programId pre post r hs hp hl,
    fun pre r post hs hl => assembled_knobs_last app programId pre post r hs hk hl⟩

/-- The statement above at the store `duplicatePadApp`, which has two pad rows with `controlId` 3. -/
theorem program_keeps_last_duplicate_witness :
    ∃ p, duplicatePadApp.program 7 = .ok p ∧
      (∀ pre r post, duplicatePadApp.m_pads = pre ++ r :: post →
        (∀ x ∈ post, x.controlId ≠ r.controlId) →
        p.pads[(r.controlId - 1).toNat]? = some (padOfRow r)) ∧
      (∀ pre r post, duplicatePadApp.m_knobs = pre ++ r :: post →
        (∀ x ∈ post, x.controlId ≠ r.controlId) →
        p.knobs[(r.controlId - 1).toNat]? = some (knobOfRow r)) :=
  program_keeps_last_duplicate duplicatePadApp 7 (by decide) (by decide)

/-- C4 as stated does not hold of the code: `duplicatePadApp` has two pad rows of program 7 with
`controlId` 3, and `program(7)` returns a Program whose `pads[2]` holds the bytes of the later
one. -/
theorem program_duplicate_pad_counterexample :
    duplicatePadApp.m_pads.map PadRow.controlId =
        [1, 2, 3, 4, 5, 6, 7, 8, 9, 10, 11, 12, 13, 14, 15, 16, 3] ∧
      duplicatePadApp.m_pads[2]? = some ⟨7, 3, 62, 2, 18, 0⟩ ∧
      duplicatePadApp.m_pads[16]? = some ⟨7, 3, 99, 98, 97, 1⟩ ∧
      Except.map (fun p => p.pads[2]?) (duplicatePadApp.program 7) =
        .ok (some ⟨99, 98, 97, 1⟩) :=
  ⟨rfl, rfl, rfl, rfl⟩

/-- C5, as the code has it: `Application::program` uses the index `controlId - 1` of every pad
row and knob row it reads without checking it against the array bounds; the accesses
`p->pads[padIndex]` are all made with an index in 0..15 exactly when every pad `controlId` read
is in 1..16, and the accesses `p->knobs[knobIndex]` with an index in 0..7 exactly when every
knob `controlId` read is in 1..8. -/
theorem program_accesses_in_bounds_iff (app : Application) :
    app.padAccesses = app.m_pads.map (fun r => r.controlId - 1) ∧
    app.knobAccesses = app.m_knobs.map (fun r => r.controlId - 1) ∧
    ((∀ i ∈ app.padAccesses, 0 ≤ i ∧ i < 16) ↔
      ∀ r ∈ app.m_pads, 1 ≤ r.controlId ∧ r.controlId ≤ 16) ∧
    ((∀ i ∈ app.knobAccesses, 0 ≤ i ∧ i < 8) ↔
      ∀ r ∈ app.m_knobs, 1 ≤ r.controlId ∧ r.controlId ≤ 8) := by
  refine ⟨padsLoopAccesses_eq_map _, knobsLoopAccesses_eq_map _, ?_, ?_⟩
  · unfold Application.padAccesses
    rw [padsLoopAccesses_eq_map]
    constructor
    · intro h r hr
      have := h (r.controlId - 1) (List.mem_map.2 ⟨r, hr, rfl⟩)
      omega
    · intro h i hi
      obtain ⟨r, hr, rfl⟩ := List.mem_map.1 hi
      have := h r hr
      omega
  · unfold Application.knobAccesses
    rw [knobsLoopAccesses_eq_map]
    constructor
    · intro h r hr
      have := h (r.controlId - 1) (List.mem_map.2 ⟨r, hr, rfl⟩)
      omega
    · intro h i hi
      obtain ⟨r, hr, rfl⟩ := List.mem_map.1 hi
      have := h r hr
      omega

/-- The statement above at the store `sampleApp`, whose rows of program 7 are all in range. -/
theorem program_accesses_in_bounds_iff_witness :
    (∀ r ∈ sampleApp.m_pads, 1 ≤ r.controlId ∧ r.controlId ≤ 16) ∧
      sampleApp.padAccesses = [0, 1, 2, 3, 4, 5, 6, 7, 8, 9, 10, 11, 12, 13, 14, 15] ∧
      ∀ i ∈ sampleApp.padAccesses, 0 ≤ i ∧ i < 16 :=
  ⟨by decide, rfl, (program_accesses_in_bounds_iff sampleApp).2.2.1.2 (by decide)⟩

/-- C5 as stated does not hold of the code: `outOfRangeApp` has as its last pad row of program
7 a row with `controlId` 17, and the accesses of `program` to `p->pads` end with the index 16,
outside the 16 elements of the array. -/
theorem program_index_unchecked_counterexample :
    outOfRangeApp.m_pads[16]? = some ⟨7, 17, 99, 98, 97, 1⟩ ∧
      outOfRangeApp.padAccesses =
        [0, 1, 2, 3, 4, 5, 6, 7, 8, 9, 10, 11, 12, 13, 14, 15, 16] ∧
      ¬ ((16 : Int) < padCount) :=
  ⟨rfl, rfl, by decide⟩

/-- C6, as the code has it: the Program that `Application::program` returns has its channel
field equal to 1, whatever channel the program row stores; and the call returns a Program
whenever every `controlId` it sees designates an array element. -/
theorem program_channel_is_one (app : Application) (programId : Int) :
    (∀ p, app.program programId = .ok p → p.channel = 1) ∧
    ((∀ r ∈ app.m_pads, 1 ≤ r.controlId ∧ r.controlId ≤ 16) →
      (∀ r ∈ app.m_knobs, 1 ≤ r.controlId ∧ r.controlId ≤ 8) →
      ∃ p, app.program programId = .ok p ∧ p.channel = 1) :=
  ⟨fun p h => by rw [program_eq_assembled app programId p h]; rfl,
    fun hp hk => ⟨_, program_ok app programId hp hk, rfl⟩⟩

/-- The statement above at the store `sampleApp`, whose program 7 stores channel 5. -/
theorem program_channel_is_one_witness :
    ∃ p, sampleApp.program 7 = .ok p ∧ p.channel = 1 :=
  (program_channel_is_one sampleApp 7).2 (by decide) (by decide)

/-- C6 as stated does not hold of the code: in `sampleApp` the active program 7 stores channel 5,
and the Program that `program(7)` returns has channel 1. -/
theorem program_channel_counterexample :
    sampleApp.activeProgramId = 7 ∧
      sampleApp.programs[1]? = some ⟨7, "seven", 5⟩ ∧
      sampleApp.activeProgramChannel = 5 ∧
      Except.map Program.channel (sampleApp.program 7) = .ok 1 :=
  ⟨rfl, rfl, rfl, rfl⟩

/-- C7: for a `programId` argument in 0..127 the Program that `Application::program` returns
has its id field equal to the argument, for every store, filter and active program id; and the
call returns a Program whenever every `controlId` it sees designates an array element. -/
theorem program_id_is_argument (app : Application) (programId : Int)
    (h0 : 0 ≤ programId) (h1 : programId ≤ 127) :
    (∀ p, app.program programId = .ok p → p.id = programId) ∧
    ((∀ r ∈ app.m_pads, 1 ≤ r.controlId ∧ r.controlId ≤ 16) →
      (∀ r ∈ app.m_knobs, 1 ≤ r.controlId ∧ r.controlId ≤ 8) →
      ∃ p, app.program programId = .ok p ∧ p.id = programId) :=
  ⟨fun p h => by
      rw [program_eq_assembled app programId p h]
      exact castChar_of_raw programId h0 h1,
    fun hp hk => ⟨_, program_ok app programId hp hk, castChar_of_raw programId h0 h1⟩⟩

/-- The statement above at the store `sampleApp` (active program 7) and device slot 4. -/
theorem program_id_is_argument_witness :
    ∃ p, sampleApp.program 4 = .ok p ∧ p.id = 4 :=
  (program_id_is_argument sampleApp 4 (by decide) (by decide)).2 (by decide) (by decide)


/-! ## The channel of the active program -/

theorem resolveRaw_channelLut_of_mem (c : Int) (h : 1 ≤ c ∧ c ≤ 16) :
    resolveRaw channelLut c = .ok c := by
  obtain ⟨h1, h2⟩ := h
  interval_cases c <;> rfl

theorem resolveRaw_channelLut_of_not_mem (c : Int) (h : ¬ (1 ≤ c ∧ c ≤ 16)) :
    resolveRaw channelLut c = .error .unknownLabel := by
  have hnone : channelLut.find? (fun e => e.1 == c) = none := by
    rw [List.find?_eq_none]
    intro x hx
    obtain ⟨i, hi, rfl⟩ := List.mem_map.1 hx
    have hlt := List.mem_range.1 hi
    simp only [beq_iff_eq]
    omega
  unfold resolveRaw
  rw [hnone]

theorem setDataDiscardingResult_of_mem (r : ProgramRow) (c : Int) (h : 1 ≤ c ∧ c ≤ 16) :
    setDataDiscardingResult r c = { r with channel := c } := by
  simp only [setDataDiscardingResult, ProgramsModel.setData, resolveRaw_channelLut_of_mem c h]

theorem setDataDiscardingResult_of_not_mem (r : ProgramRow) (c : Int)
    (h : ¬ (1 ≤ c ∧ c ≤ 16)) : setDataDiscardingResult r c = r := by
  simp only [setDataDiscardingResult, ProgramsModel.setData,
    resolveRaw_channelLut_of_not_mem c h]

theorem setActiveProgramChannelLoop_length (active channel : Int) (rows : List ProgramRow) :
    (setActiveProgramChannelLoop active channel rows).1.length = rows.length := by
  induction rows with
  | nil => rfl
  | cons r rows ih =>
    simp only [setActiveProgramChannelLoop]
    split
    · split <;> simp only [List.length_cons, ih]
    · simp only [List.length_cons, ih]

/-- A row after the loop is a row from before the loop or a row `setData` has written, whose
channel is then a channel of the lookup table. -/
theorem mem_setActiveProgramChannelLoop (active channel : Int) (rows : List ProgramRow)
    (r : ProgramRow) (h : r ∈ (setActiveProgramChannelLoop active channel rows).1) :
    r ∈ rows ∨ (1 ≤ r.channel ∧ r.channel ≤ 16) := by
  induction rows with
  | nil => cases h
  | cons r0 rows ih =>
    have htail : r ∈ (setActiveProgramChannelLoop active channel rows).1 →
        r ∈ r0 :: rows ∨ (1 ≤ r.channel ∧ r.channel ≤ 16) := by
      intro h3
      rcases ih h3 with h4 | h4
      · exact Or.inl (List.mem_cons_of_mem _ h4)
      · exact Or.inr h4
    simp only [setActiveProgramChannelLoop] at h
    split at h
    · split at h
      · rcases List.mem_cons.1 h with h1 | h1
        · by_cases hc : 1 ≤ channel ∧ channel ≤ 16
          · rw [setDataDiscardingResult_of_mem r0 channel hc] at h1
            right
            rw [h1]
            exact hc
          · rw [setDataDiscardingResult_of_not_mem r0 channel hc] at h1
            left
            rw [h1]
            exact List.mem_cons_self _ _
        · exact htail h1
      · rcases List.mem_cons.1 h with h1 | h1
        · left
          rw [h1]
          exact List.mem_cons_self _ _
        · exact htail h1
    · rcases List.mem_cons.1 h with h1 | h1
      · left
        rw [h1]
        exact List.mem_cons_self _ _
      · exact htail h1

/-- The loop leaves in place every row whose id is not the active program id. -/
theorem setActiveProgramChannelLoop_getElem?_of_ne (active channel : Int)
    (rows : List ProgramRow) (i : Nat) (r : ProgramRow) (h : rows[i]? = some r)
    (hne : r.programId ≠ active) :
    (setActiveProgramChannelLoop active channel rows).1[i]? = some r := by
  induction rows generalizing i with
  | nil => simp at h
  | cons r0 rows ih =>
    cases i with
    | zero =>
      simp only [List.getElem?_cons_zero, Option.some.injEq] at h
      subst h
      simp only [setActiveProgramChannelLoop, if_neg hne, List.getElem?_cons_zero]
    | succ j =>
      simp only [List.getElem?_cons_succ] at h
      simp only [setActiveProgramChannelLoop]
      split
      · split
        · simp only [List.getElem?_cons_succ]
          exact ih j h
        · simp only [List.getElem?_cons_succ]
          exact ih j h
      · simp only [List.getElem?_cons_succ]
        exact ih j h

/-- After the set loop with a channel of the lookup table, the get loop finds that channel when
some row has the active id. -/
theorem activeProgramChannelLoop_set (active channel : Int) (rows : List ProgramRow)
    (hc : 1 ≤ channel ∧ channel ≤ 16) (h : ∃ r ∈ rows, r.programId = active) :
    activeProgramChannelLoop active (setActiveProgramChannelLoop active channel rows).1 =
      channel := by
  induction rows with
  | nil =>
    obtain ⟨r, hr, _⟩ := h
    cases hr
  | cons r0 rows ih =>
    by_cases h1 : r0.programId = active
    · by_cases h2 : channel ≠ r0.channel
      · simp only [setActiveProgramChannelLoop, if_pos h1, if_pos h2,
          setDataDiscardingResult_of_mem r0 channel hc, activeProgramChannelLoop]
      · simp only [setActiveProgramChannelLoop, if_pos h1, if_neg h2, activeProgramChannelLoop]
        exact (not_not.1 h2).symm
    · simp only [setActiveProgramChannelLoop, if_neg h1, activeProgramChannelLoop]
      apply ih
      obtain ⟨r, hr, hid⟩ := h
      rcases List.mem_cons.1 hr with rfl | hr2
      · exact absurd hid h1
      · exact ⟨r, hr2, hid⟩

theorem activeProgramChannelLoop_of_forall_ne (active : Int) (rows : List ProgramRow)
    (h : ∀ r ∈ rows, r.programId ≠ active) : activeProgramChannelLoop active rows = -1 := by
  induction rows with
  | nil => rfl
  | cons r0 rows ih =>
    simp only [activeProgramChannelLoop, if_neg (h r0 (List.mem_cons_self _ _))]
    exact ih (fun r hr => h r (List.mem_cons_of_mem _ hr))

/-- Every signal the loop emits carries the argument `channel`. -/
theorem setActiveProgramChannelLoop_signals (active channel : Int) (rows : List ProgramRow) :
    ∀ s ∈ (setActiveProgramChannelLoop active channel rows).2, s = channel := by
  induction rows with
  | nil => intro s hs; cases hs
  | cons r0 rows ih =>
    intro s hs
    simp only [setActiveProgramChannelLoop] at hs
    split at hs
    · split at hs
      · rcases List.mem_cons.1 hs with h1 | h1
        · exact h1
        · exact ih s h1
      · exact ih s hs
    · exact ih s hs

/-- C8: `Application::setActiveProgramChannel` preserves the invariant `channel ∈ [1,16]` of
the program rows: when every program row has its channel in 1..16, every program row has its
channel in 1..16 after the call, for every integer argument; `setData` of the specification
leaves the row as it is when the argument is no channel of the lookup table. -/
theorem setActiveProgramChannel_preserves_channel_range (app : Application) (channel : Int)
    (h : ∀ r ∈ app.programs, 1 ≤ r.channel ∧ r.channel ≤ 16) :
    ∀ r ∈ (app.setActiveProgramChannel channel).1.programs,
      1 ≤ r.channel ∧ r.channel ≤ 16 := by
  intro r hr
  rcases mem_setActiveProgramChannelLoop _ _ _ r hr with h1 | h1
  · exact h r h1
  · exact h1

/-- The statement above at the store `sampleApp` (channels 3 and 5) with the arguments 16,
which is written to the row of the active program 7, and 17, which `setData` rejects. -/
theorem setActiveProgramChannel_preserves_channel_range_witness :
    (∀ r ∈ sampleApp.programs, 1 ≤ r.channel ∧ r.channel ≤ 16) ∧
      (sampleApp.setActiveProgramChannel 16).1.programs = [⟨1, "one", 3⟩, ⟨7, "seven", 16⟩] ∧
      (sampleApp.setActiveProgramChannel 17).1.programs = [⟨1, "one", 3⟩, ⟨7, "seven", 5⟩] ∧
      (∀ r ∈ (sampleApp.setActiveProgramChannel 16).1.programs,
        1 ≤ r.channel ∧ r.channel ≤ 16) ∧
      (∀ r ∈ (sampleApp.setActiveProgramChannel 17).1.programs,
        1 ≤ r.channel ∧ r.channel ≤ 16) :=
  ⟨by decide, rfl, rfl,
    setActiveProgramChannel_preserves_channel_range sampleApp 16 (by decide),
    setActiveProgramChannel_preserves_channel_range sampleApp 17 (by decide)⟩

/-- C10, as the model of `setData` has it: when some program row has the id
`activeProgramId()`, `setActiveProgramChannel(c)` followed by `activeProgramChannel()` returns
`c` for every `c` in 1..16; for every integer `c` the call keeps the number of program rows and
leaves every row whose id differs from the active program id as it was; and when no row has
the active id `activeProgramChannel()` returns -1. -/
theorem setActiveProgramChannel_then_get (app : Application) (c : Int) :
    ((1 ≤ c ∧ c ≤ 16) → (∃ r ∈ app.programs, r.programId = app.activeProgramId) →
      (app.setActiveProgramChannel c).1.activeProgramChannel = c) ∧
    (app.setActiveProgramChannel c).1.programs.length = app.programs.length ∧
    (∀ (i : Nat) (r : ProgramRow), app.programs[i]? = some r →
      r.programId ≠ app.activeProgramId →
      (app.setActiveProgramChannel c).1.programs[i]? = some r) ∧
    ((∀ r ∈ app.programs, r.programId ≠ app.activeProgramId) →
      app.activeProgramChannel = -1) :=
  ⟨fun hc h => activeProgramChannelLoop_set app.activeProgramId c app.programs hc h,
    setActiveProgramChannelLoop_length _ _ _,
    fun i r h hne =>
      setActiveProgramChannelLoop_getElem?_of_ne app.activeProgramId c app.programs i r h hne,
    fun h => activeProgramChannelLoop_of_forall_ne _ _ h⟩

/-- The statement above at the store `sampleApp` (active program 7) and the channel 12. -/
theorem setActiveProgramChannel_then_get_witness :
    (sampleApp.setActiveProgramChannel 12).1.activeProgramChannel = 12 ∧
      (sampleApp.setActiveProgramChannel 12).1.programs[0]? = some ⟨1, "one", 3⟩ :=
  ⟨(setActiveProgramChannel_then_get sampleApp 12).1 (by decide)
      ⟨⟨7, "seven", 5⟩, by decide, rfl⟩,
    (setActiveProgramChannel_then_get sampleApp 12).2.2.1 0 ⟨1, "one", 3⟩ rfl (by decide)⟩

/-- C10 as stated does not hold of the model of `setData`: in `sampleApp` the row of the active
program 7 stores channel 5; `setActiveProgramChannel(17)` emits the signal with 17, which the
assertion of the connected slot refuses, and leaves the rows as they are, since 17 is no
channel of the lookup table; `activeProgramChannel()` then returns 5. -/
theorem setActiveProgramChannel_then_get_counterexample :
    sampleApp.activeProgramId = 7 ∧
      sampleApp.programs[1]? = some ⟨7, "seven", 5⟩ ∧
      (sampleApp.setActiveProgramChannel 17).1.programs = [⟨1, "one", 3⟩, ⟨7, "seven", 5⟩] ∧
      (sampleApp.setActiveProgramChannel 17).2 = [17] ∧
      setMidiChannelAssertion 17 = false ∧
      (sampleApp.setActiveProgramChannel 17).1.activeProgramChannel = 5 :=
  ⟨rfl, rfl, rfl, rfl, rfl, rfl⟩

/-! ## The handles of the tree -/

theorem GroupKind.ofCode_code (kind : GroupKind) : GroupKind.ofCode kind.code = kind := by
  cases kind <;> rfl

theorem GroupKind.code_lt (kind : GroupKind) : kind.code < 2 := by
  cases kind <;> decide

theorem GroupKind.size_le (kind : GroupKind) : kind.size ≤ 16 := by
  cases kind <;> decide

theorem ProgramsModel.pack_tag (tag programId groupKind controlId : Nat) (ht : tag < 4) :
    ProgramsModel.pack tag programId groupKind controlId % 4 = tag := by
  unfold ProgramsModel.pack
  omega

theorem ProgramsModel.pack_groupKind (tag programId groupKind controlId : Nat) (ht : tag < 4)
    (hg : groupKind < 2) :
    ProgramsModel.pack tag programId groupKind controlId / 4 % 2 = groupKind := by
  unfold ProgramsModel.pack
  omega

theorem ProgramsModel.pack_controlId (tag programId groupKind controlId : Nat) (ht : tag < 4)
    (hg : groupKind < 2) (hc : controlId < 32) :
    ProgramsModel.pack tag programId groupKind controlId / 8 % 32 = controlId := by
  unfold ProgramsModel.pack
  omega

theorem ProgramsModel.pack_programId (tag programId groupKind controlId : Nat) (ht : tag < 4)
    (hg : groupKind < 2) (hc : controlId < 32) :
    ProgramsModel.pack tag programId groupKind controlId / 256 = programId := by
  unfold ProgramsModel.pack
  omega

theorem ProgramsModel.decode_encode (x : Node) (hx : x.Valid) :
    ProgramsModel.decode (ProgramsModel.encode x) = some x := by
  cases x with
  | root => rfl
  | program programId =>
    simp [ProgramsModel.encode, ProgramsModel.decode, ProgramsModel.pack_tag,
      ProgramsModel.pack_groupKind, ProgramsModel.pack_controlId, ProgramsModel.pack_programId]
  | group programId kind =>
    have hk := kind.code_lt
    simp [ProgramsModel.encode, ProgramsModel.decode, ProgramsModel.pack_tag,
      ProgramsModel.pack_groupKind, ProgramsModel.pack_controlId, ProgramsModel.pack_programId,
      hk, GroupKind.ofCode_code]
  | control programId kind controlId =>
    have hk := kind.code_lt
    have hs := kind.size_le
    have hv : 1 ≤ controlId ∧ controlId ≤ kind.size := hx
    have hc : controlId < 32 := by omega
    simp [ProgramsModel.encode, ProgramsModel.decode, ProgramsModel.pack_tag,
      ProgramsModel.pack_groupKind, ProgramsModel.pack_controlId, ProgramsModel.pack_programId,
      hk, hc, hv, GroupKind.ofCode_code]

theorem ProgramsModel.parent_control (programId : Nat) (kind : GroupKind) (controlId : Nat)
    (hx : (Node.control programId kind controlId).Valid) :
    ProgramsModel.parent (ProgramsModel.encode (.control programId kind controlId)) =
      ProgramsModel.encode (.group programId kind) := by
  have hk := kind.code_lt
  have hs := kind.size_le
  have hv : 1 ≤ controlId ∧ controlId ≤ kind.size := hx
  have hc : controlId < 32 := by omega
  simp [ProgramsModel.encode, ProgramsModel.parent, ProgramsModel.pack_tag,
    ProgramsModel.pack_groupKind, ProgramsModel.pack_programId, hk, hc]

theorem ProgramsModel.parent_group (programId : Nat) (kind : GroupKind) :
    ProgramsModel.parent (ProgramsModel.encode (.group programId kind)) =
      ProgramsModel.encode (.program programId) := by
  have hk := kind.code_lt
  simp [ProgramsModel.encode, ProgramsModel.parent, ProgramsModel.pack_tag,
    ProgramsModel.pack_programId, hk]

theorem ProgramsModel.parent_program (programId : Nat) :
    ProgramsModel.parent (ProgramsModel.encode (.program programId)) =
      ProgramsModel.encode .root := by
  simp [ProgramsModel.encode, ProgramsModel.parent, ProgramsModel.pack_tag]

/-- C9: for the handle scheme of the specification, decoding the handle of a node gives the
node back for all four node kinds, two nodes with one handle are the same node, the parent of a
control handle is the handle of its group, the parent of a group handle is the handle of its
program, and the parent of a program handle is the root handle. -/
theorem handles_roundtrip_and_parents :
    (∀ x : Node, x.Valid → ProgramsModel.decode (ProgramsModel.encode x) = some x) ∧
    (∀ x y : Node, x.Valid → y.Valid → ProgramsModel.encode x = ProgramsModel.encode y →
      x = y) ∧
    (∀ programId kind controlId, (Node.control programId kind controlId).Valid →
      ProgramsModel.parent (ProgramsModel.encode (.control programId kind controlId)) =
        ProgramsModel.encode (.group programId kind)) ∧
    (∀ programId kind,
      ProgramsModel.parent (ProgramsModel.encode (.group programId kind)) =
        ProgramsModel.encode (.program programId)) ∧
    (∀ programId,
      ProgramsModel.parent (ProgramsModel.encode (.program programId)) =
        ProgramsModel.encode .root) := by
  refine ⟨ProgramsModel.decode_encode, ?_, ProgramsModel.parent_control,
    ProgramsModel.parent_group, ProgramsModel.parent_program⟩
  intro x y hx hy h
  have h1 := ProgramsModel.decode_encode x hx
  rw [h, ProgramsModel.decode_encode y hy] at h1
  exact (Option.some.inj h1).symm

/-- The statement above at knob 5 of program 7. -/
theorem handles_roundtrip_and_parents_witness :
    ProgramsModel.decode (ProgramsModel.encode (.control 7 .knobs 5)) =
        some (.control 7 .knobs 5) ∧
      ProgramsModel.parent (ProgramsModel.encode (.control 7 .knobs 5)) =
        ProgramsModel.encode (.group 7 .knobs) :=
  ⟨handles_roundtrip_and_parents.1 _ (by decide),
    handles_roundtrip_and_parents.2.2.1 7 .knobs 5 (by decide)⟩

end Lpd8
